import Mathlib

/-!
Shallow embedding of the scheduler, plugin-loader and device-mount helpers of
the calibre excerpt (src/calibre/web/feeds/recipes/collection.py,
src/calibre/customize/zipplugin.py, src/calibre/devices/udisks.py).

Python byte/character strings are modelled as `List Char`; Python exceptions
as `Except Unit` (or an explicit error type); datetimes as exact rationals
counting seconds since `EPOCH` for absolute (UTC) instants, and as a record of
calendar fields for local wall-clock values.
-/

namespace CalibreSpec

instance {ε α : Type} [DecidableEq ε] [DecidableEq α] : DecidableEq (Except ε α) :=
  fun x y =>
    match x, y with
    | .ok a, .ok b => if h : a = b then isTrue (by rw [h]) else isFalse (by simp [h])
    | .error a, .error b => if h : a = b then isTrue (by rw [h]) else isFalse (by simp [h])
    | .ok _, .error _ => isFalse (by simp)
    | .error _, .ok _ => isFalse (by simp)

abbrev Chars := List Char

/-- The whitespace characters recognised by Python's `str.strip`/`bytes.split`. -/
def isSpaceChar (c : Char) : Bool :=
  c = ' ' || c = '\t' || c = '\n' || c = '\r' || c = '\x0b' || c = '\x0c'

/-- Python `str.strip()`: drop leading and trailing whitespace. -/
def pyStrip (s : Chars) : Chars :=
  ((s.dropWhile isSpaceChar).reverse.dropWhile isSpaceChar).reverse

/-- Python `str.split(sep)` for a one-character separator `sep`:
splits at every occurrence, keeping empty pieces. -/
def splitOnChar (sep : Char) : Chars → List Chars
  | [] => [[]]
  | c :: rest =>
    match splitOnChar sep rest with
    | [] => [[]]
    | h :: t => if c = sep then [] :: h :: t else (c :: h) :: t

/-- Python `sep.join(parts)` for a one-character separator. -/
def joinSep (sep : Char) : List Chars → Chars
  | [] => []
  | [x] => x
  | x :: y :: rest => x ++ sep :: joinSep sep (y :: rest)

/-- The decimal digit character for `d` (callers only pass `d < 10`). -/
def digitChr (d : Nat) : Char :=
  match d with
  | 0 => '0' | 1 => '1' | 2 => '2' | 3 => '3' | 4 => '4'
  | 5 => '5' | 6 => '6' | 7 => '7' | 8 => '8' | 9 => '9'
  | _ => '!'

/-- Digit characters of `n`, most significant first, by repeated division;
`fuel` bounds the recursion and any `fuel > n` is enough. -/
def natToTextAux (fuel n : Nat) : Chars :=
  match fuel with
  | 0 => []
  | f + 1 => if n = 0 then [] else natToTextAux f (n / 10) ++ [digitChr (n % 10)]

/-- Python `str(n)` for a non-negative integer. -/
def natToText (n : Nat) : Chars :=
  if n = 0 then ['0'] else natToTextAux (n + 1) n

/-- Python `str(i)` for an integer. -/
def intToText (i : Int) : Chars :=
  if i < 0 then '-' :: natToText i.natAbs else natToText i.natAbs

/-- Decimal value of a digit string (callers check the digits first). -/
def textVal (s : Chars) : Nat :=
  s.foldl (fun a c => 10 * a + (c.toNat - 48)) 0

/-- Parse an unsigned run of decimal digits; `none` models the `ValueError`
Python's `int()` raises on any other input. -/
def natFromText? (s : Chars) : Option Nat :=
  if s ≠ [] ∧ s.all Char.isDigit then some (textVal s) else none

/-- Python `int(s)` on a string: strip whitespace, optional sign, decimal
digits (the underscore-separator extension is unused by this code base). -/
def pyInt? (s0 : Chars) : Option Int :=
  let s := pyStrip s0
  if s.head? = some '-' then (natFromText? s.tail).map fun n => -Int.ofNat n
  else if s.head? = some '+' then (natFromText? s.tail).map Int.ofNat
  else (natFromText? s).map Int.ofNat

/-- Python `float(s)` on the plain decimal forms `d+`, `d+.d*`, `.d+` with an
optional sign (exponent/inf/nan forms are never produced by the scheduler's
serializer). The value is kept exact as a rational. -/
def pyFloat? (s0 : Chars) : Option ℚ :=
  let s1 := pyStrip s0
  let sg : ℚ := if s1.head? = some '-' then -1 else 1
  let s := if s1.head? = some '-' ∨ s1.head? = some '+' then s1.tail else s1
  match splitOnChar '.' s with
  | [ip] => (natFromText? ip).map fun n => sg * (n : ℚ)
  | [ip, fp] =>
    if ip.isEmpty && fp.isEmpty then none
    else if ip.isEmpty then (natFromText? fp).map fun f => sg * ((f : ℚ) / 10 ^ fp.length)
    else if fp.isEmpty then (natFromText? ip).map fun n => sg * (n : ℚ)
    else
      match natFromText? ip, natFromText? fp with
      | some n, some f => some (sg * ((n : ℚ) + (f : ℚ) / 10 ^ fp.length))
      | _, _ => none
  | _ => none

/-- Python `f'{x:f}'` for the non-negative values the scheduler clamps to:
six digits after the decimal point. Mathlib's `round` rounds ties up where
CPython rounds them to even, but a binary float is never an exact tie at the
sixth decimal, so the two agree on every value the code can pass. -/
def fmtFixed6 (q : ℚ) : Chars :=
  let n := (round (q * 1000000)).toNat
  let fracDigits := natToText (n % 1000000)
  natToText (n / 1000000) ++ '.' :: (List.replicate (6 - fracDigits.length) '0' ++ fracDigits)

/-- The value a six-decimal fixed-point rendering preserves. -/
def round6 (q : ℚ) : ℚ := (round (q * 1000000) : ℚ) / 1000000

/-! ## Calendar arithmetic (`datetime.date` / `calendar.weekday`) -/

/-- A local wall-clock datetime, the fields `nowf()` and `astimezone(local_tz)`
expose to the scheduler. Hour and minute are `Int` so they compare directly
with the (possibly negative) integers parsed out of a schedule. -/
structure LocalDT where
  year : Nat
  month : Nat
  day : Nat
  hour : Int
  minute : Int
deriving DecidableEq, Repr

/-- Gregorian leap-year test, as in `calendar.isleap`. -/
def isLeap (y : Nat) : Bool := y % 4 = 0 && (y % 100 ≠ 0 || y % 400 = 0)

/-- Days in all years strictly before `y` (proleptic Gregorian). -/
def daysBeforeYear (y : Nat) : Nat :=
  let p := y - 1
  365 * p + p / 4 - p / 100 + p / 400

/-- Days in the months of year `y` strictly before month `m` (1-based). -/
def daysBeforeMonth (y m : Nat) : Nat :=
  [0, 31, 59, 90, 120, 151, 181, 212, 243, 273, 304, 334].getD (m - 1) 0 +
    (if 2 < m && isLeap y then 1 else 0)

/-- `datetime.date(y, m, d).toordinal()`: day number with 0001-01-01 as 1. -/
def toordinal (y m d : Nat) : Nat := daysBeforeYear y + daysBeforeMonth y m + d

/-- `calendar.weekday(y, m, d)`: 0 is Monday .. 6 is Sunday. -/
def calendar_weekday (y m d : Nat) : Nat := (toordinal y m d + 6) % 7

/-! ## Schedule (de)serialization
(`SchedulerConfig.serialize_schedule` / `un_serialize_schedule`) -/

/-- The `<schedule>` child element: its `type` attribute and its text. -/
structure SchedElem where
  typ : String
  text : Chars
deriving DecidableEq, Repr

/-- The `schedule` argument of `serialize_schedule`, by shape: a number for
`interval`, three values for `day/time`, a day list plus hour and minute for
`days_of_week` / `days_of_month` (Python's `int()` coercions already applied,
so the entries are integers). -/
inductive SchedVal where
  | num (x : ℚ)
  | dayTime (d h m : Int)
  | days (ds : List Int) (h m : Int)
deriving DecidableEq, Repr

/-- How `serialize_schedule` fails: `valueError` is the explicit
`raise ValueError` on an unknown type; `typeMismatch` models the `TypeError`
Python raises when the schedule value's shape does not fit the type. -/
inductive SerErr where
  | valueError
  | typeMismatch
deriving DecidableEq, Repr

/-- `SchedulerConfig.serialize_schedule`. -/
def serialize_schedule (typ : String) (schedule : SchedVal) : Except SerErr SchedElem :=
  if typ = "interval" then
    match schedule with
    | .num x =>
      let x := if x < (4 : ℚ) / 100 then (4 : ℚ) / 100 else x
      .ok ⟨typ, fmtFixed6 x⟩
    | _ => .error .typeMismatch
  else if typ = "day/time" then
    match schedule with
    | .dayTime d h m =>
      .ok ⟨typ, intToText d ++ ':' :: (intToText h ++ ':' :: intToText m)⟩
    | _ => .error .typeMismatch
  else if typ = "days_of_week" ∨ typ = "days_of_month" then
    match schedule with
    | .days ds h m =>
      .ok ⟨typ, joinSep ',' (ds.map intToText) ++ ':' :: (intToText h ++ ':' :: intToText m)⟩
    | _ => .error .typeMismatch
  else .error .valueError

/-- `UNDEFINED_DATE` (`datetime(101, 1, 1, tzinfo=utc)`) as seconds relative
to `EPOCH` (1970-01-01): 682638 days before it. -/
def UNDEFINED_DATE : ℚ := -58979923200

/-- `EPOCH` (1970-01-01 UTC) in the seconds-since-epoch model. -/
def EPOCH : ℚ := 0

/-- The result of `un_serialize_schedule`'s parse, by schedule type. For a
type outside the four known ones the raw text is returned unconverted. -/
inductive ParsedSched where
  | interval (sch : ℚ)
  | dayTime (vals : List Int)
  | daysOf (isWeek : Bool) (days : List Int) (h m : Int)
  | other (typ : String) (text : Chars)
deriving DecidableEq, Repr

/-- The body of `SchedulerConfig.un_serialize_schedule` once the `<schedule>`
descendant has been located: `sched = none` models a recipe element with no
schedule child (the Python function then falls off the loop and returns
`None`); `ld` is the outcome of `parse_iso8601(recipe.get('last_downloaded'))`
with `none` for the exception path that yields `UNDEFINED_DATE`. An `.error`
result models an uncaught `ValueError`/`IndexError` while converting the text. -/
def un_serialize_core (sched : Option SchedElem) (ld : Option ℚ) :
    Option (Except Unit (ParsedSched × ℚ)) :=
  match sched with
  | none => none
  | some el =>
    let ldv := ld.getD UNDEFINED_DATE
    some <|
      if el.typ = "interval" then
        match pyFloat? el.text with
        | none => .error ()
        | some q => .ok (.interval q, ldv)
      else if el.typ = "day/time" then
        match (splitOnChar ':' el.text).mapM pyInt? with
        | none => .error ()
        | some vs => .ok (.dayTime vs, ldv)
      else if el.typ = "days_of_week" ∨ el.typ = "days_of_month" then
        match splitOnChar ':' el.text with
        | p0 :: p1 :: p2 :: _ =>
          match (splitOnChar ',' p0).mapM (fun s => pyInt? (pyStrip s)),
              pyInt? p1, pyInt? p2 with
          | some ds, some h, some m =>
            .ok (.daysOf (el.typ = "days_of_week") ds h m, ldv)
          | _, _, _ => .error ()
        | _ => .error ()
      else .ok (.other el.typ el.text, ldv)

/-- A `<scheduled_recipe>` element as `un_serialize_schedule` sees it: its
(first) `<schedule>` descendant and its parsed `last_downloaded` attribute. -/
structure Recipe where
  sched : Option SchedElem
  last_downloaded : Option ℚ
deriving DecidableEq, Repr

/-- `SchedulerConfig.un_serialize_schedule`. -/
def un_serialize_schedule (r : Recipe) : Option (Except Unit (ParsedSched × ℚ)) :=
  un_serialize_core r.sched r.last_downloaded

/-! ## `SchedulerConfig.recipe_needs_to_be_downloaded` -/

/-- The ambient clock and timezone: `utcnow()` in seconds since `EPOCH`,
`now()` (`nowf`) as local wall-clock fields, and `astimezone(local_tz)` as a
partial conversion from an absolute instant to local fields (`none` models
the exception branch the code catches). -/
structure Env where
  nowUtc : ℚ
  nowLocal : LocalDT
  toLocal : ℚ → Option LocalDT

/-- The inner helper `is_time(now, hour, minute)`. -/
def is_time (now : LocalDT) (hour minute : Int) : Bool :=
  now.hour > hour || (now.hour = hour && now.minute ≥ minute)

/-- The inner helper `is_weekday(day, now)`. -/
def is_weekday (day : Int) (now : LocalDT) : Bool :=
  day < 0 || day > 6 || day = (calendar_weekday now.year now.month now.day : Int)

/-- The inner helper `was_downloaded_already_today(ld_local, now)`:
`datetime.date()` equality. -/
def was_downloaded_already_today (ldl now : LocalDT) : Bool :=
  ldl.year = now.year && ldl.month = now.month && ldl.day = now.day

/-- `SchedulerConfig.recipe_needs_to_be_downloaded`. The outer `try` only
wraps `un_serialize_schedule` (and the unpacking of its result), so the
`day, hour, minute = sch` unpacking in the `day/time` branch can still raise:
that path is the `.error` result. `timedelta(sch)` is `sch` days, kept exact
as `sch * 86400` seconds. -/
def recipe_needs_to_be_downloaded (env : Env) (r : Recipe) : Except Unit Bool :=
  match un_serialize_schedule r with
  | none => .ok false
  | some (.error _) => .ok false
  | some (.ok (ps, ld)) =>
    match ps with
    | .interval sch => .ok (decide (env.nowUtc - ld > sch * 86400))
    | .dayTime vals =>
      match env.toLocal ld with
      | none => .ok false
      | some ldl =>
        match vals with
        | [day, hour, minute] =>
          .ok (is_weekday day env.nowLocal &&
            !was_downloaded_already_today ldl env.nowLocal &&
            is_time env.nowLocal hour minute)
        | _ => .error ()
    | .daysOf isWeek days hour minute =>
      match env.toLocal ld with
      | none => .ok false
      | some ldl =>
        let have_day :=
          if isWeek then days.any (fun d => is_weekday d env.nowLocal)
          else decide ((env.nowLocal.day : Int) ∈ days)
        .ok (have_day &&
          !was_downloaded_already_today ldl env.nowLocal &&
          is_time env.nowLocal hour minute)
    | .other _ _ => .ok false

/-! ## The scheduler tree and its mutating operations -/

/-- A `recipe_customization` value (the `RecipeCustomization` named tuple);
`recipe_specific_options` is kept as its JSON rendering, which the code
treats opaquely. -/
structure RecipeCustomization where
  add_title_tag : Bool
  custom_tags : List String
  keep_issues : Int
  recipe_specific_options : String
deriving DecidableEq, Repr

/-- A child of the `<recipe_collection>` root. `last_downloaded` is stored as
the parsed instant: the code writes `isoformat` and reads `parse_iso8601`,
which are exact inverses on the values it writes. -/
inductive Node where
  | scheduled_recipe (id title : String) (last_downloaded : ℚ) (sched : SchedElem)
  | recipe_customization (id : String) (val : RecipeCustomization)
  | account_info (id username password : String)
deriving DecidableEq, Repr

/-- Does `n` match `iter_recipes` with the given id? -/
def Node.isRecipeWithId (rid : String) : Node → Bool
  | .scheduled_recipe i _ _ _ => i = rid
  | _ => false

/-- Does `n` match `iter_customization` with the given id? -/
def Node.isCustWithId (urn : String) : Node → Bool
  | .recipe_customization i _ => i = urn
  | _ => false

/-- Does `n` match `iter_accounts` with the given id? -/
def Node.isAccountWithId (urn : String) : Node → Bool
  | .account_info i _ _ => i = urn
  | _ => false

/-- The scheduler's in-memory tree (`self.root`, a child list) together with
the contents of `conf_path` (`scheduler.xml`); the file stores the tree it
was last serialized from (the pretty-printing whitespace `write_scheduler_file`
also sets carries no data and is elided). -/
structure SchedState where
  root : List Node
  fileContents : Option (List Node)
deriving DecidableEq, Repr

/-- `SchedulerConfig.write_scheduler_file`. -/
def write_scheduler_file (s : SchedState) : SchedState :=
  { s with fileContents := some s.root }

/-- `SchedulerConfig.schedule_recipe`. The boolean is `true` when
`serialize_schedule` raised: the first matching element has then already been
removed but nothing was appended or written. `ld` inheritance: the first
matching old element's `last_downloaded` is reused when the argument is
`none`, else `EPOCH`. -/
def schedule_recipe (s : SchedState) (rid title : String) (schedule_type : String)
    (schedule : SchedVal) (last_downloaded : Option ℚ) : SchedState × Bool :=
  let prevLd : Option ℚ :=
    match s.root.find? (Node.isRecipeWithId rid) with
    | some (.scheduled_recipe _ _ ld _) => some ld
    | _ => none
  let root1 := s.root.eraseP (Node.isRecipeWithId rid)
  let ld := (last_downloaded.or prevLd).getD EPOCH
  match serialize_schedule schedule_type schedule with
  | .error _ => ({ s with root := root1 }, true)
  | .ok el =>
    (write_scheduler_file { s with root := root1 ++ [.scheduled_recipe rid title ld el] }, false)

/-- `SchedulerConfig.customize_recipe`: removes every matching customization
(the loop has no `break`), appends the new one, writes. -/
def customize_recipe (s : SchedState) (urn : String) (val : RecipeCustomization) : SchedState :=
  let root1 := s.root.filter fun n => !Node.isCustWithId urn n
  write_scheduler_file { s with root := root1 ++ [.recipe_customization urn val] }

/-- `SchedulerConfig.un_schedule_recipe`: removes the first matching
scheduled recipe, writes. -/
def un_schedule_recipe (s : SchedState) (rid : String) : SchedState :=
  write_scheduler_file { s with root := s.root.eraseP (Node.isRecipeWithId rid) }

/-- The body of `update_last_downloaded`'s loop on the first matching
element: re-reads the schedule and snaps `now` back to the nominal instant
when an interval download fired within an hour of its nominal time. -/
def update_one (now : ℚ) : Node → Except Unit Node
  | .scheduled_recipe i t ld el =>
    match un_serialize_core (some el) (some ld) with
    | some (.ok (ps, ld0)) =>
      let now1 :=
        match ps with
        | .interval sch => if |now - ld0 - sch * 86400| < 3600 then ld0 + sch * 86400 else now
        | _ => now
      .ok (.scheduled_recipe i t now1 el)
    | some (.error _) => .error ()
    | none => .error ()
  | n => .ok n

/-- The traversal of `update_last_downloaded`: first matching recipe is
updated, the loop then breaks. -/
def update_ld_list (now : ℚ) (rid : String) : List Node → Except Unit (List Node)
  | [] => .ok []
  | n :: rest =>
    if Node.isRecipeWithId rid n then
      match update_one now n with
      | .ok n' => .ok (n' :: rest)
      | .error e => .error e
    else (update_ld_list now rid rest).map (n :: ·)

/-- `SchedulerConfig.update_last_downloaded`; `now` is `utcnow()`. The
boolean is `true` when `un_serialize_schedule` raised inside the loop: the
tree is then unchanged (the `x.set` was not reached) and nothing was written. -/
def update_last_downloaded (s : SchedState) (rid : String) (now : ℚ) : SchedState × Bool :=
  match update_ld_list now rid s.root with
  | .error _ => (s, true)
  | .ok root1 => (write_scheduler_file { s with root := root1 }, false)

/-- `SchedulerConfig.set_account_info`: removes the first matching
`account_info` (the loop breaks), appends the new one, writes. -/
def set_account_info (s : SchedState) (urn un pw : String) : SchedState :=
  write_scheduler_file
    { s with root := s.root.eraseP (Node.isAccountWithId urn) ++ [.account_info urn un pw] }

/-! ## Lock discipline (`self.lock`, the one `RLock` of `__init__`)

Each `SchedulerConfig` method that touches `self.root` is abstracted to its
sequence of lock and root-access events, in source order; `with self.lock:`
contributes the surrounding `acquire`/`release` pair. -/

inductive LockEvent where
  | acquire
  | release
  | accessRoot
deriving DecidableEq, Repr

/-- Every `accessRoot` event happens at positive lock depth. -/
def lockedFold (d : Nat) : List LockEvent → Bool
  | [] => true
  | .acquire :: r => lockedFold (d + 1) r
  | .release :: r => lockedFold (d - 1) r
  | .accessRoot :: r => decide (0 < d) && lockedFold d r

def accessesUnderLock (t : List LockEvent) : Bool := lockedFold 0 t

/-- `schedule_recipe`: iterate recipes, remove, append, write (which reads
the root), all inside `with self.lock`. -/
def schedule_recipe_events : List LockEvent :=
  [.acquire, .accessRoot, .accessRoot, .accessRoot, .accessRoot, .release]

/-- `customize_recipe`: iterate, remove matches, append, write. -/
def customize_recipe_events : List LockEvent :=
  [.acquire, .accessRoot, .accessRoot, .accessRoot, .accessRoot, .release]

/-- `un_schedule_recipe`: iterate, remove, write. -/
def un_schedule_recipe_events : List LockEvent :=
  [.acquire, .accessRoot, .accessRoot, .accessRoot, .release]

/-- `update_last_downloaded`: iterate, set attribute, write. -/
def update_last_downloaded_events : List LockEvent :=
  [.acquire, .accessRoot, .accessRoot, .accessRoot, .release]

/-- `get_to_be_downloaded_recipes`: iterate recipes (reading each). -/
def get_to_be_downloaded_recipes_events : List LockEvent :=
  [.acquire, .accessRoot, .release]

/-- `set_account_info`: iterate accounts, remove, append, write. -/
def set_account_info_events : List LockEvent :=
  [.acquire, .accessRoot, .accessRoot, .accessRoot, .accessRoot, .release]

/-- `get_account_info`: iterate accounts. -/
def get_account_info_events : List LockEvent :=
  [.acquire, .accessRoot, .release]

/-- `clear_account_info`: iterate, remove via `getparent()`, write. -/
def clear_account_info_events : List LockEvent :=
  [.acquire, .accessRoot, .accessRoot, .accessRoot, .release]

/-- `get_customize_info`: iterate customizations. -/
def get_customize_info_events : List LockEvent :=
  [.acquire, .accessRoot, .release]

/-- `get_schedule_info`: iterate recipes, un-serialize the match. -/
def get_schedule_info_events : List LockEvent :=
  [.acquire, .accessRoot, .accessRoot, .release]

/-! ## The zip plugin loader (`calibre/customize/zipplugin.py`) -/

/-- Plugin file contents are opaque byte strings. -/
abbrev Bytes := List Nat

/-- A `zipfile.ZipInfo` as the loader uses it: only its `filename` matters
to the modelled code paths. -/
structure ZInfo where
  filename : String
deriving DecidableEq, Repr

/-- A compiled code object, abstractly. -/
abbrev Code := Nat

/-- The zip archive and interpreter services the loader calls into:
`zf.read(zinfo)`, `zf.read(name)` (either may raise), and `compile` keyed by
the source bytes and the synthesized file name. -/
structure ZipEnv where
  readInfo : ZInfo → Except Unit Bytes
  readName : String → Except Unit Bytes
  compile : Bytes → String → Code

/-- `CalibrePluginLoader`'s slots (those `get_source_as_bytes`/`exec_module`
read). `names` is the per-plugin module table mapping the dotted name inside
the plugin to its zip entry. -/
structure PluginLoader where
  plugin_name : String
  fullname_in_plugin : String
  zip_file_path : String
  names : List (String × ZInfo)
  filename : String
deriving DecidableEq, Repr

/-- Python truthiness of the loader's string slots (`None` is modelled as the
empty string, which is falsy just the same). -/
def truthyS (s : String) : Bool := !(s == "")

/-- `CalibrePluginLoader.get_source_as_bytes`: starts from `b''`, reads the
zip entry only when all three slots are truthy and the name is in the table;
a failed read by `ZipInfo` falls back to a read by entry name, whose failure
propagates. -/
def get_source_as_bytes (env : ZipEnv) (L : PluginLoader) : Except Unit Bytes :=
  if truthyS L.plugin_name && truthyS L.fullname_in_plugin && truthyS L.zip_file_path then
    match L.names.lookup L.fullname_in_plugin with
    | none => .ok []
    | some zi =>
      match env.readInfo zi with
      | .ok b => .ok b
      | .error _ => env.readName zi.filename
  else .ok []

/-- `CalibrePluginLoader.get_code`: compile the source bytes under the
synthesized module file name. -/
def get_code (env : ZipEnv) (L : PluginLoader) : Except Unit Code :=
  (get_source_as_bytes env L).map fun b =>
    env.compile b ("calibre_plugins." ++ L.plugin_name ++ "." ++ L.fullname_in_plugin)

/-- The observable outcome of `exec_module` on a fresh module object: the
`__file__` it sets, the code object it executes in the module namespace, and
whether the `get_resources`/`get_icons`/`load_translations` helpers were
injected (they are iff `zip_file_path` is truthy). -/
structure PModule where
  file : String
  executed : Code
  helpersInjected : Bool
deriving DecidableEq, Repr

/-- `CalibrePluginLoader.exec_module`. -/
def exec_module (env : ZipEnv) (L : PluginLoader) : Except Unit PModule :=
  (get_code env L).map fun code =>
    { file := L.filename, executed := code, helpersInjected := truthyS L.zip_file_path }

/-! ## `get_resources` (module-level, zipplugin.py) -/

/-- The `name_or_list_of_names` argument: a bare string or a list. -/
inductive RNames where
  | one (n : String)
  | many (ns : List String)
deriving DecidableEq, Repr

/-- The return value of `get_resources`: a dict, bare bytes, or `None`. -/
inductive RRes where
  | dict (d : List (String × Bytes))
  | bytes (b : Bytes)
  | null
deriving DecidableEq, Repr

/-- Python dict assignment `d[k] = v` on an insertion-ordered dict. -/
def dictInsert : List (String × Bytes) → String → Bytes → List (String × Bytes)
  | [], k, v => [(k, v)]
  | kv :: rest, k, v => if kv.1 = k then (k, v) :: rest else kv :: dictInsert rest k v

/-- Python `d.pop(k, None)` (also dict lookup): the value at the first — in
this dict, only — pair with the key. -/
def dictLookup : List (String × Bytes) → String → Option Bytes
  | [], _ => none
  | kv :: rest, k => if kv.1 = k then some kv.2 else dictLookup rest k

/-- The dict `get_resources` accumulates: one `zf.read` per requested name,
failures skipped. -/
def resourcesDict (zf : String → Option Bytes) (names : List String) : List (String × Bytes) :=
  names.foldl
    (fun acc n =>
      match zf n with
      | some b => dictInsert acc n b
      | none => acc)
    []

/-- `get_resources`, over an abstract zip archive `zf` mapping entry names to
contents (`none` makes `zf.read` raise, which the code swallows). The final
`if len(names) == 1` collapse uses `ans.pop(names[0], None)`. -/
def get_resources (zf : String → Option Bytes) (inp : RNames) : RRes :=
  let names := match inp with | .one n => [n] | .many ns => ns
  let ans := resourcesDict zf names
  match names with
  | [n] =>
    match dictLookup ans n with
    | some b => .bytes b
    | none => .null
  | _ => .dict ans

/-! ## `node_mountpoint` (`calibre/devices/udisks.py`, the `/proc/mounts`
branch taken on every non-FreeBSD system) -/

/-- Worker for `replaceAll`; `fuel ≥ s.length` makes it total because every
step consumes at least one character of `s` (the pattern is nonempty). -/
def replaceAllAux (pat rep : Chars) : Nat → Chars → Chars
  | _, [] => []
  | 0, s => s
  | fuel + 1, c :: rest =>
    if pat.isPrefixOf (c :: rest) then
      rep ++ replaceAllAux pat rep fuel ((c :: rest).drop pat.length)
    else c :: replaceAllAux pat rep fuel rest

/-- Python `bytes.replace(pat, rep)` for nonempty `pat`: left-to-right,
non-overlapping, no rescanning of the replacement. -/
def replaceAll (pat rep : Chars) (s : Chars) : Chars :=
  if pat.length = 0 then s else replaceAllAux pat rep s.length s

/-- The inner `de_mangle`: undo the four octal escapes `/proc/mounts` uses,
in the source's replace order (the trailing `.decode('utf-8')` is the
identity in this character-level model). -/
def de_mangle (raw : Chars) : Chars :=
  replaceAll ['\\', '0', '1', '3', '4'] ['\\']
    (replaceAll ['\\', '0', '1', '2'] ['\n']
      (replaceAll ['\\', '0', '1', '1'] ['\t']
        (replaceAll ['\\', '0', '4', '0'] [' '] raw)))

/-- Worker for `pySplitWs`: `cur` is the reversed word being accumulated. -/
def pySplitWsAux (cur : Chars) : Chars → List Chars
  | [] => if cur = [] then [] else [cur.reverse]
  | c :: rest =>
    if isSpaceChar c then
      if cur = [] then pySplitWsAux [] rest else cur.reverse :: pySplitWsAux [] rest
    else pySplitWsAux (c :: cur) rest

/-- Python `bytes.split()` with no argument: split on whitespace runs,
producing no empty fields. -/
def pySplitWs (s : Chars) : List Chars := pySplitWsAux [] s

/-- `node_mountpoint(node)` on the already-read lines of `/proc/mounts`: the
first line whose first whitespace-separated field equals `node` yields its
de-mangled second field; no such line yields `None`. A malformed line hit
along the way (`line[0]`/`line[1]` out of range) raises `IndexError`, which
is the `.error` result. -/
def node_mountpoint (node : Chars) (lines : List Chars) : Except Unit (Option Chars) :=
  match lines with
  | [] => .ok none
  | l :: rest =>
    match pySplitWs l with
    | [] => .error ()
    | [f0] => if f0 = node then .error () else node_mountpoint node rest
    | f0 :: f1 :: _ => if f0 = node then .ok (some (de_mangle f1)) else node_mountpoint node rest

/-! ## Lemmas: characters and digit strings -/

theorem ne_of_toNat_ne {c d : Char} (h : c.val.toNat ≠ d.val.toNat) : c ≠ d :=
  fun he => h (by rw [he])

theorem isDigit_toNat {c : Char} (h : c.isDigit = true) :
    48 ≤ c.val.toNat ∧ c.val.toNat ≤ 57 := by
  simp only [Char.isDigit, Bool.and_eq_true, decide_eq_true_eq] at h
  exact ⟨h.1, h.2⟩

/-- A decimal digit character is none of the separator or sign characters the
scheduler's text formats use, and is not whitespace. -/
theorem digit_char_facts {c : Char} (h : c.isDigit = true) :
    isSpaceChar c = false ∧ c ≠ '-' ∧ c ≠ '+' ∧ c ≠ '.' ∧ c ≠ ':' ∧ c ≠ ',' := by
  obtain ⟨hv1, hv2⟩ := isDigit_toNat h
  refine ⟨?_, ?_, ?_, ?_, ?_, ?_⟩
  · simp only [isSpaceChar, Bool.or_eq_false_iff, decide_eq_false_iff_not]
    refine ⟨⟨⟨⟨⟨?_, ?_⟩, ?_⟩, ?_⟩, ?_⟩, ?_⟩
    · apply ne_of_toNat_ne; have : (' ' : Char).val.toNat = 32 := (by decide); omega
    · apply ne_of_toNat_ne; have : ('\t' : Char).val.toNat = 9 := (by decide); omega
    · apply ne_of_toNat_ne; have : ('\n' : Char).val.toNat = 10 := (by decide); omega
    · apply ne_of_toNat_ne; have : ('\r' : Char).val.toNat = 13 := (by decide); omega
    · apply ne_of_toNat_ne; have : ('\x0b' : Char).val.toNat = 11 := (by decide); omega
    · apply ne_of_toNat_ne; have : ('\x0c' : Char).val.toNat = 12 := (by decide); omega
  · apply ne_of_toNat_ne; have : ('-' : Char).val.toNat = 45 := (by decide); omega
  · apply ne_of_toNat_ne; have : ('+' : Char).val.toNat = 43 := (by decide); omega
  · apply ne_of_toNat_ne; have : ('.' : Char).val.toNat = 46 := (by decide); omega
  · apply ne_of_toNat_ne; have : (':' : Char).val.toNat = 58 := (by decide); omega
  · apply ne_of_toNat_ne; have : (',' : Char).val.toNat = 44 := (by decide); omega

theorem digitChr_isDigit {d : Nat} (h : d < 10) : (digitChr d).isDigit = true := by
  interval_cases d <;> decide

theorem digitChr_toNat {d : Nat} (h : d < 10) : (digitChr d).toNat - 48 = d := by
  interval_cases d <;> decide

theorem natToTextAux_digits {f : Nat} : ∀ {n : Nat}, ∀ c ∈ natToTextAux f n, c.isDigit = true := by
  induction f with
  | zero => intro n c hc; simp [natToTextAux] at hc
  | succ f ih =>
    intro n c hc
    rw [natToTextAux] at hc
    split at hc
    · simp at hc
    · rcases List.mem_append.mp hc with h | h
      · exact ih _ h
      · rcases List.mem_singleton.mp h with rfl
        exact digitChr_isDigit (Nat.mod_lt _ (by omega))

theorem natToText_digits : ∀ c ∈ natToText n, c.isDigit = true := by
  intro c hc
  rw [natToText] at hc
  split at hc
  · rcases List.mem_singleton.mp hc with rfl; decide
  · exact natToTextAux_digits c hc

theorem textVal_append_digit (s : Chars) (c : Char) :
    textVal (s ++ [c]) = 10 * textVal s + (c.toNat - 48) := by
  simp [textVal, List.foldl_append]

theorem textVal_natToTextAux {f : Nat} : ∀ {n : Nat}, n < f → textVal (natToTextAux f n) = n := by
  induction f with
  | zero => omega
  | succ f ih =>
    intro n hn
    rw [natToTextAux]
    split
    · simp [textVal]; omega
    · rename_i hn0
      rw [textVal_append_digit, ih (by omega),
        digitChr_toNat (show n % 10 < 10 by omega)]
      omega

theorem natToText_ne_nil : natToText n ≠ [] := by
  rw [natToText]
  split
  · simp
  · rename_i h
    rw [natToTextAux]
    split
    · omega
    · simp

theorem natFromText?_natToText (n : Nat) : natFromText? (natToText n) = some n := by
  rw [natFromText?, if_pos]
  · congr 1
    rw [natToText]
    split
    · simp [textVal]; omega
    · exact textVal_natToTextAux (by omega)
  · exact ⟨natToText_ne_nil, List.all_eq_true.mpr fun c hc => natToText_digits c hc⟩

/-! ## Lemmas: strip, signed integers, splitting and joining -/

theorem dropWhile_eq_self_of {p : Char → Bool} {l : Chars}
    (h : ∀ c ∈ l, p c = false) : l.dropWhile p = l := by
  cases l with
  | nil => rfl
  | cons c rest => rw [List.dropWhile_cons, h c (by simp)]; simp

theorem pyStrip_eq_self {s : Chars} (h : ∀ c ∈ s, isSpaceChar c = false) : pyStrip s = s := by
  rw [pyStrip, dropWhile_eq_self_of h,
    dropWhile_eq_self_of (fun c hc => h c (List.mem_reverse.mp hc)), List.reverse_reverse]

theorem mem_intToText {i : Int} {c : Char} (h : c ∈ intToText i) :
    c.isDigit = true ∨ c = '-' := by
  rw [intToText] at h
  split at h
  · rcases List.mem_cons.mp h with rfl | h
    · exact Or.inr rfl
    · exact Or.inl (natToText_digits c h)
  · exact Or.inl (natToText_digits c h)

theorem intToText_not_space {i : Int} : ∀ c ∈ intToText i, isSpaceChar c = false := by
  intro c hc
  rcases mem_intToText hc with h | rfl
  · exact (digit_char_facts h).1
  · decide

theorem intToText_ne_sep {i : Int} : ∀ c ∈ intToText i, c ≠ ':' ∧ c ≠ ',' ∧ c ≠ '.' := by
  intro c hc
  rcases mem_intToText hc with h | rfl
  · exact ⟨(digit_char_facts h).2.2.2.2.1, (digit_char_facts h).2.2.2.2.2,
      (digit_char_facts h).2.2.2.1⟩
  · refine ⟨by decide, by decide, by decide⟩

/-- The first character of `str(n)` for `n : Nat` is never a sign. -/
theorem natToText_head_ne_sign (n : Nat) :
    (natToText n).head? ≠ some '-' ∧ (natToText n).head? ≠ some '+' := by
  obtain ⟨c, rest, hcr⟩ : ∃ c rest, natToText n = c :: rest := by
    cases h : natToText n with
    | nil => exact absurd h natToText_ne_nil
    | cons c rest => exact ⟨c, rest, rfl⟩
  have hcd : c.isDigit = true := natToText_digits c (by rw [hcr]; simp)
  rw [hcr]
  constructor
  · simp only [List.head?_cons, ne_eq, Option.some.injEq]
    exact (digit_char_facts hcd).2.1
  · simp only [List.head?_cons, ne_eq, Option.some.injEq]
    exact (digit_char_facts hcd).2.2.1

/-- `int(str(i)) == i`. -/
theorem pyInt?_intToText (i : Int) : pyInt? (intToText i) = some i := by
  rw [pyInt?]
  simp only [pyStrip_eq_self intToText_not_space]
  rw [intToText]
  split
  · rename_i hneg
    simp only [List.head?_cons, Option.some.injEq, List.tail_cons,
      natFromText?_natToText, Option.map_some']
    rw [if_pos (by trivial)]
    congr 1
    simp only [Int.ofNat_eq_coe]
    omega
  · rename_i hneg
    rw [if_neg (natToText_head_ne_sign _).1, if_neg (natToText_head_ne_sign _).2,
      natFromText?_natToText, Option.map_some']
    congr 1
    simp only [Int.ofNat_eq_coe]
    omega

theorem splitOnChar_cons_eq {sep : Char} (c : Char) {rest : Chars} {x : Chars}
    {t : List Chars} (h : splitOnChar sep rest = x :: t) :
    splitOnChar sep (c :: rest) = if c = sep then [] :: x :: t else (c :: x) :: t := by
  rw [splitOnChar, h]

theorem splitOnChar_ne_nil {sep : Char} {s : Chars} : splitOnChar sep s ≠ [] := by
  induction s with
  | nil => simp [splitOnChar]
  | cons c rest ih =>
    cases h : splitOnChar sep rest with
    | nil => exact absurd h ih
    | cons x t => rw [splitOnChar_cons_eq c h]; split <;> simp

theorem splitOnChar_no_sep {sep : Char} {s : Chars} (h : ∀ c ∈ s, c ≠ sep) :
    splitOnChar sep s = [s] := by
  induction s with
  | nil => rfl
  | cons c rest ih =>
    rw [splitOnChar_cons_eq c (ih (fun x hx => h x (by simp [hx])))]
    rw [if_neg (h c (by simp))]

theorem splitOnChar_append_sep {sep : Char} {x rest : Chars} (h : ∀ c ∈ x, c ≠ sep) :
    splitOnChar sep (x ++ sep :: rest) = x :: splitOnChar sep rest := by
  induction x with
  | nil =>
    rw [List.nil_append]
    cases hr : splitOnChar sep rest with
    | nil => exact absurd hr splitOnChar_ne_nil
    | cons y t => rw [splitOnChar_cons_eq sep hr, if_pos rfl]
  | cons c cx ih =>
    rw [List.cons_append, splitOnChar_cons_eq c (ih (fun a ha => h a (by simp [ha])))]
    rw [if_neg (h c (by simp))]

theorem splitOnChar_joinSep {sep : Char} {parts : List Chars} (hne : parts ≠ [])
    (h : ∀ p ∈ parts, ∀ c ∈ p, c ≠ sep) :
    splitOnChar sep (joinSep sep parts) = parts := by
  induction parts with
  | nil => exact absurd rfl hne
  | cons p rest ih =>
    cases rest with
    | nil => exact splitOnChar_no_sep (h p (by simp))
    | cons q t =>
      rw [joinSep, splitOnChar_append_sep (h p (by simp)),
        ih (by simp) (fun a ha c hc => h a (by simp [ha]) c hc)]

/-! ## Lemmas: six-decimal fixed-point round trip -/

theorem foldl_val_replicate_zero (k : Nat) :
    List.foldl (fun a c => 10 * a + (c.toNat - 48)) 0 (List.replicate k '0') = 0 := by
  induction k with
  | zero => rfl
  | succ k ih =>
    rw [List.replicate_succ, List.foldl_cons]
    have h0 : (10 * 0 + ('0'.toNat - 48)) = 0 := by decide
    rw [h0]
    exact ih

theorem textVal_replicate_zero (k : Nat) (s : Chars) :
    textVal (List.replicate k '0' ++ s) = textVal s := by
  rw [textVal, textVal, List.foldl_append, foldl_val_replicate_zero]

theorem natFromText?_pad (k m : Nat) :
    natFromText? (List.replicate k '0' ++ natToText m) = some m := by
  rw [natFromText?, if_pos, textVal_replicate_zero]
  · congr 1
    conv_lhs => rw [natToText]
    split
    · simp [textVal]; omega
    · exact textVal_natToTextAux (by omega)
  constructor
  · intro h
    exact natToText_ne_nil (List.append_eq_nil.mp h).2
  · rw [List.all_eq_true]
    intro c hc
    rcases List.mem_append.mp hc with h | h
    · rcases List.eq_of_mem_replicate h with rfl
      decide
    · exact natToText_digits c h

theorem natToTextAux_length {f : Nat} :
    ∀ {n k : Nat}, n < f → n < 10 ^ k → (natToTextAux f n).length ≤ k := by
  induction f with
  | zero => omega
  | succ f ih =>
    intro n k hn hk
    rw [natToTextAux]
    split
    · simp
    · rename_i hn0
      have hk0 : k ≠ 0 := by
        rintro rfl
        simp at hk
        omega
      rw [List.length_append, List.length_singleton]
      have : (natToTextAux f (n / 10)).length ≤ k - 1 := by
        refine ih (by omega) ?_
        have : 10 ^ k = 10 ^ (k - 1) * 10 := by
          rw [← pow_succ]
          congr 1
          omega
        rw [Nat.div_lt_iff_lt_mul (by omega)]
        omega
      omega

theorem natToText_length_le {n k : Nat} (h1 : 0 < k) (h2 : n < 10 ^ k) :
    (natToText n).length ≤ k := by
  rw [natToText]
  split
  · simpa using h1
  · exact natToTextAux_length (by omega) h2

theorem mem_fmt_digit_or_dot {q : ℚ} {c : Char} (h : c ∈ fmtFixed6 q) :
    c.isDigit = true ∨ c = '.' := by
  rw [fmtFixed6] at h
  rcases List.mem_append.mp h with h | h
  · exact Or.inl (natToText_digits c h)
  · rcases List.mem_cons.mp h with rfl | h
    · exact Or.inr rfl
    · rcases List.mem_append.mp h with h | h
      · rcases List.eq_of_mem_replicate h with rfl
        exact Or.inl (by decide)
      · exact Or.inl (natToText_digits c h)

/-- `float(f'{q:f}') == round(q * 10**6) / 10**6` for the clamped positive
values the scheduler serializes. -/
theorem pyFloat?_fmtFixed6 {q : ℚ} (hq : (1 : ℚ) / 100 ≤ q) :
    pyFloat? (fmtFixed6 q) = some (round6 q) := by
  have hr : (10000 : ℤ) ≤ round (q * 1000000) := by
    rw [round_eq, Int.le_floor]
    push_cast
    linarith
  set n : Nat := (round (q * 1000000)).toNat with hn
  have hcast : (n : ℤ) = round (q * 1000000) := Int.toNat_of_nonneg (by omega)
  have hstrip : pyStrip (fmtFixed6 q) = fmtFixed6 q := by
    refine pyStrip_eq_self fun c hc => ?_
    rcases mem_fmt_digit_or_dot hc with h | rfl
    · exact (digit_char_facts h).1
    · decide
  have hfmt : fmtFixed6 q =
      natToText (n / 1000000) ++ '.' ::
        (List.replicate (6 - (natToText (n % 1000000)).length) '0' ++ natToText (n % 1000000)) := by
    rw [fmtFixed6]
  obtain ⟨c, crest, hcr⟩ : ∃ c crest, natToText (n / 1000000) = c :: crest := by
    cases h : natToText (n / 1000000) with
    | nil => exact absurd h natToText_ne_nil
    | cons c crest => exact ⟨c, crest, rfl⟩
  have hcd : c.isDigit = true := natToText_digits c (by rw [hcr]; simp)
  have hhead : (fmtFixed6 q).head? = some c := by
    rw [hfmt, hcr]
    rfl
  have hsplit : splitOnChar '.' (fmtFixed6 q) =
      [natToText (n / 1000000),
        List.replicate (6 - (natToText (n % 1000000)).length) '0' ++ natToText (n % 1000000)] := by
    rw [hfmt, splitOnChar_append_sep (fun a ha => (digit_char_facts (natToText_digits a ha)).2.2.2.1),
      splitOnChar_no_sep]
    intro a ha
    rcases List.mem_append.mp ha with h | h
    · rcases List.eq_of_mem_replicate h with rfl
      decide
    · exact (digit_char_facts (natToText_digits a h)).2.2.2.1
  have hlen : (List.replicate (6 - (natToText (n % 1000000)).length) '0' ++
      natToText (n % 1000000)).length = 6 := by
    rw [List.length_append, List.length_replicate]
    have : (natToText (n % 1000000)).length ≤ 6 :=
      natToText_length_le (by omega) (by omega)
    omega
  simp only [pyFloat?, hstrip, hhead, Option.some.injEq]
  rw [if_neg (fun he => (digit_char_facts hcd).2.1 he),
    if_neg ?side, hsplit]
  case side =>
    rintro (he | he)
    · exact (digit_char_facts hcd).2.1 (Option.some.injEq .. ▸ he)
    · exact (digit_char_facts hcd).2.2.1 (Option.some.injEq .. ▸ he)
  have hipe : (natToText (n / 1000000)).isEmpty = false := by
    rw [hcr]
    rfl
  have hfpe : (List.replicate (6 - (natToText (n % 1000000)).length) '0' ++
      natToText (n % 1000000)).isEmpty = false := by
    rcases h : List.replicate (6 - (natToText (n % 1000000)).length) '0' ++
        natToText (n % 1000000) with _ | ⟨x, t⟩
    · exact absurd (List.append_eq_nil.mp h).2 natToText_ne_nil
    · rfl
  simp only [hipe, hfpe, Bool.and_self, Bool.false_eq_true, if_false,
    natFromText?_natToText, natFromText?_pad, hlen]
  rw [round6, ← hcast]
  push_cast
  have hmodN : 1000000 * (n / 1000000) + n % 1000000 = n := Nat.div_add_mod n 1000000
  have hmod : (n : ℚ) = 1000000 * ((n / 1000000 : Nat) : ℚ) + ((n % 1000000 : Nat) : ℚ) := by
    exact_mod_cast hmodN.symm
  rw [hmod]
  ring_nf

theorem mem_joinSep {sep : Char} {parts : List Chars} {c : Char}
    (h : c ∈ joinSep sep parts) : c = sep ∨ ∃ p ∈ parts, c ∈ p := by
  induction parts with
  | nil => simp [joinSep] at h
  | cons p rest ih =>
    cases rest with
    | nil => exact Or.inr ⟨p, by simp, h⟩
    | cons q t =>
      rw [joinSep] at h
      rcases List.mem_append.mp h with h | h
      · exact Or.inr ⟨p, by simp, h⟩
      · rcases List.mem_cons.mp h with rfl | h
        · exact Or.inl rfl
        · rcases ih h with h | ⟨r, hr, hc⟩
          · exact Or.inl h
          · exact Or.inr ⟨r, by simp [List.mem_cons.mp hr], hc⟩

/-! ## Lemmas: schedule round trips -/

theorem intToText_not_colon {i : Int} : ∀ c ∈ intToText i, c ≠ ':' :=
  fun c hc => (intToText_ne_sep c hc).1

theorem mapM_strip_int (ds : List Int) :
    (ds.map intToText).mapM (fun s => pyInt? (pyStrip s)) = some ds := by
  induction ds with
  | nil => rfl
  | cons d rest ih =>
    rw [List.map_cons, List.mapM_cons, pyStrip_eq_self intToText_not_space,
      pyInt?_intToText, ih]
    rfl

theorem join_days_ne_colon {ds : List Int} :
    ∀ c ∈ joinSep ',' (ds.map intToText), c ≠ ':' := by
  intro c hc
  rcases mem_joinSep hc with rfl | ⟨p, hp, hcp⟩
  · decide
  · rcases List.mem_map.mp hp with ⟨i, _, rfl⟩
    exact intToText_not_colon c hcp

/-- `un_serialize_core` on an explicit `<schedule>` element, with the
projections computed away. -/
theorem un_serialize_core_some (typ : String) (text : Chars) (ld : Option ℚ) :
    un_serialize_core (some ⟨typ, text⟩) ld =
      some (
        if typ = "interval" then
          match pyFloat? text with
          | none => .error ()
          | some q => .ok (.interval q, ld.getD UNDEFINED_DATE)
        else if typ = "day/time" then
          match (splitOnChar ':' text).mapM pyInt? with
          | none => .error ()
          | some vs => .ok (.dayTime vs, ld.getD UNDEFINED_DATE)
        else if typ = "days_of_week" ∨ typ = "days_of_month" then
          match splitOnChar ':' text with
          | p0 :: p1 :: p2 :: _ =>
            match (splitOnChar ',' p0).mapM (fun s => pyInt? (pyStrip s)),
                pyInt? p1, pyInt? p2 with
            | some ds, some hh, some mm =>
              .ok (.daysOf (typ = "days_of_week") ds hh mm, ld.getD UNDEFINED_DATE)
            | _, _, _ => .error ()
          | _ => .error ()
        else .ok (.other typ text, ld.getD UNDEFINED_DATE)) := rfl

/-- Round trip for an `interval` schedule: the stored value is the clamped
input up to six-decimal fixed-point formatting. -/
theorem rt_interval (x ld : ℚ) {el : SchedElem}
    (hser : serialize_schedule "interval" (.num x) = .ok el) :
    un_serialize_core (some el) (some ld) =
      some (.ok (.interval (round6 (if x < (4 : ℚ) / 100 then (4 : ℚ) / 100 else x)), ld)) := by
  rw [serialize_schedule, if_pos rfl] at hser
  injection hser with hser2
  subst hser2
  have hq : (1 : ℚ) / 100 ≤ if x < (4 : ℚ) / 100 then (4 : ℚ) / 100 else x := by
    split <;> linarith
  rw [un_serialize_core_some, if_pos rfl, pyFloat?_fmtFixed6 hq]
  rfl

/-- Round trip for a `day/time` schedule. -/
theorem rt_daytime (d h m : Int) (ld : ℚ) {el : SchedElem}
    (hser : serialize_schedule "day/time" (.dayTime d h m) = .ok el) :
    un_serialize_core (some el) (some ld) = some (.ok (.dayTime [d, h, m], ld)) := by
  rw [serialize_schedule, if_neg (by decide), if_pos rfl] at hser
  injection hser with hser2
  subst hser2
  rw [un_serialize_core_some]
  rw [if_neg (by decide), if_pos rfl,
    splitOnChar_append_sep intToText_not_colon,
    splitOnChar_append_sep intToText_not_colon,
    splitOnChar_no_sep intToText_not_colon]
  rw [List.mapM_cons, List.mapM_cons, List.mapM_cons, List.mapM_nil,
    pyInt?_intToText, pyInt?_intToText, pyInt?_intToText]
  rfl

/-- Round trip for a `days_of_week` / `days_of_month` schedule with a
nonempty day list. -/
theorem rt_days (typ : String) (ds : List Int) (h m : Int) (ld : ℚ) {el : SchedElem}
    (hds : ds ≠ [])
    (htyp : typ = "days_of_week" ∨ typ = "days_of_month")
    (hser : serialize_schedule typ (.days ds h m) = .ok el) :
    un_serialize_core (some el) (some ld) =
      some (.ok (.daysOf (decide (typ = "days_of_week")) ds h m, ld)) := by
  have hmapne : ds.map intToText ≠ [] := by
    simpa using hds
  have hnosep : ∀ p ∈ ds.map intToText, ∀ c ∈ p, c ≠ ',' := by
    intro p hp c hc
    rcases List.mem_map.mp hp with ⟨i, _, rfl⟩
    exact (intToText_ne_sep c hc).2.1
  rcases htyp with rfl | rfl
  · rw [serialize_schedule, if_neg (by decide), if_neg (by decide),
      if_pos (Or.inl rfl)] at hser
    injection hser with hser2
    subst hser2
    rw [un_serialize_core_some]
    rw [if_neg (by decide), if_neg (by decide), if_pos (Or.inl rfl),
      splitOnChar_append_sep join_days_ne_colon,
      splitOnChar_append_sep intToText_not_colon,
      splitOnChar_no_sep intToText_not_colon]
    simp only [splitOnChar_joinSep hmapne hnosep, mapM_strip_int, pyInt?_intToText]
    rfl
  · rw [serialize_schedule, if_neg (by decide), if_neg (by decide),
      if_pos (Or.inr rfl)] at hser
    injection hser with hser2
    subst hser2
    rw [un_serialize_core_some]
    rw [if_neg (by decide), if_neg (by decide), if_pos (Or.inr rfl),
      splitOnChar_append_sep join_days_ne_colon,
      splitOnChar_append_sep intToText_not_colon,
      splitOnChar_no_sep intToText_not_colon]
    simp only [splitOnChar_joinSep hmapne hnosep, mapM_strip_int, pyInt?_intToText]
    rfl

/-! ## Claim theorems -/

theorem un_serialize_schedule_mk (sched : Option SchedElem) (ld : Option ℚ) :
    un_serialize_schedule ⟨sched, ld⟩ = un_serialize_core sched ld := rfl

/-- C8 counterexample: the round-trip claim fails as stated for a
`days_of_week` schedule with an empty day list — serialization succeeds but
`un_serialize_schedule` raises (it calls `int('')`), so un-serializing the
serialized schedule does not return the same schedule. -/
theorem c8_roundtrip_empty_days :
    (serialize_schedule "days_of_week" (.days [] 3 40)).map
      (fun el => un_serialize_schedule ⟨some el, some 7⟩) =
    .ok (some (.error ())) := by decide

/-- C8 (amended): schedule serialization round-trips. For `day/time` (three
integers) and for `days_of_week` / `days_of_month` with a NONEMPTY list of
integer days, `un_serialize_schedule` applied to an element holding the
output of `serialize_schedule` returns the same type and an equal schedule;
for `interval` it returns `max(schedule, 0.04)` up to the six-decimal
fixed-point formatting used when serializing. -/
theorem c8_schedule_roundtrip :
    (∀ (x ld : ℚ) (el : SchedElem),
      serialize_schedule "interval" (.num x) = .ok el →
      un_serialize_schedule ⟨some el, some ld⟩ =
        some (.ok (.interval (round6 (if x < (4 : ℚ) / 100 then (4 : ℚ) / 100 else x)), ld))) ∧
    (∀ (d h m : Int) (ld : ℚ) (el : SchedElem),
      serialize_schedule "day/time" (.dayTime d h m) = .ok el →
      un_serialize_schedule ⟨some el, some ld⟩ = some (.ok (.dayTime [d, h, m], ld))) ∧
    (∀ (typ : String) (ds : List Int) (h m : Int) (ld : ℚ) (el : SchedElem),
      ds ≠ [] → (typ = "days_of_week" ∨ typ = "days_of_month") →
      serialize_schedule typ (.days ds h m) = .ok el →
      un_serialize_schedule ⟨some el, some ld⟩ =
        some (.ok (.daysOf (decide (typ = "days_of_week")) ds h m, ld))) :=
  ⟨fun x ld _ hser => rt_interval x ld hser,
   fun d h m ld _ hser => rt_daytime d h m ld hser,
   fun typ ds h m ld _ hds htyp hser => rt_days typ ds h m ld hds htyp hser⟩

/-- C8 witness: the round trip evaluated on one concrete schedule of each
kind. -/
theorem c8_schedule_roundtrip_witness :
    un_serialize_schedule
        ⟨some ⟨"interval", fmtFixed6 (if (2 : ℚ) < 4 / 100 then 4 / 100 else 2)⟩, some 5⟩ =
      some (.ok (.interval (round6 (if (2 : ℚ) < 4 / 100 then 4 / 100 else 2)), 5)) ∧
    un_serialize_schedule
        ⟨some ⟨"day/time", intToText (-1) ++ ':' :: (intToText 3 ++ ':' :: intToText 40)⟩,
          some 5⟩ =
      some (.ok (.dayTime [-1, 3, 40], 5)) ∧
    un_serialize_schedule
        ⟨some ⟨"days_of_week",
          joinSep ',' ([(0 : Int), 2, 5].map intToText) ++ ':' ::
            (intToText 3 ++ ':' :: intToText 40)⟩, some 5⟩ =
      some (.ok (.daysOf (decide (("days_of_week" : String) = "days_of_week")) [0, 2, 5] 3 40, 5)) :=
  ⟨c8_schedule_roundtrip.1 2 5 _ rfl,
   c8_schedule_roundtrip.2.1 (-1) 3 40 5 _ rfl,
   c8_schedule_roundtrip.2.2 "days_of_week" [0, 2, 5] 3 40 5 _ (by decide) (Or.inl rfl) rfl⟩

/-- C1: for a scheduled recipe whose schedule type is `interval` with stored
interval `sch` and last-downloaded time `ld`, `recipe_needs_to_be_downloaded`
returns `True` iff the current UTC time minus `ld` exceeds a timedelta of
`sch` days; if un-serializing the schedule raises, it returns `False`. -/
theorem c1_interval_needs_download (env : Env) (r : Recipe) :
    (∀ (sch ld : ℚ), un_serialize_schedule r = some (.ok (.interval sch, ld)) →
      recipe_needs_to_be_downloaded env r = .ok (decide (env.nowUtc - ld > sch * 86400))) ∧
    (∀ e : Unit, un_serialize_schedule r = some (.error e) →
      recipe_needs_to_be_downloaded env r = .ok false) := by
  constructor
  · intro sch ld h
    rw [recipe_needs_to_be_downloaded, h]
  · intro e h
    rw [recipe_needs_to_be_downloaded, h]

/-- C1 witness: a concrete overdue interval recipe needs downloading, and a
recipe whose schedule text does not parse yields `False`. -/
theorem c1_interval_needs_download_witness :
    recipe_needs_to_be_downloaded ⟨200000, ⟨2026, 1, 1, 0, 0⟩, fun _ => none⟩
        ⟨some ⟨"interval", ['2']⟩, some 0⟩ = .ok true ∧
    recipe_needs_to_be_downloaded ⟨200000, ⟨2026, 1, 1, 0, 0⟩, fun _ => none⟩
        ⟨some ⟨"interval", ['x']⟩, some 0⟩ = .ok false := by
  constructor
  · have h := (c1_interval_needs_download ⟨200000, ⟨2026, 1, 1, 0, 0⟩, fun _ => none⟩
      ⟨some ⟨"interval", ['2']⟩, some 0⟩).1 _ _ rfl
    rw [h]
    congr 1
    exact decide_eq_true (by
      norm_num [show pyStrip ['2'] = ['2'] from rfl, show textVal ['2'] = 2 from rfl,
        show ¬('2' : Char) = '-' by decide])
  · exact (c1_interval_needs_download _ _).2 () rfl

/-- C3: `SchedulerConfig` handles exactly the four schedule kinds:
`serialize_schedule` raises `ValueError` on any other type, and
`recipe_needs_to_be_downloaded` returns `False` for a schedule element whose
type is none of the four. -/
theorem c3_unknown_schedule_type (typ : String) (sv : SchedVal) (env : Env)
    (text : Chars) (ld : Option ℚ)
    (h : ¬(typ = "interval" ∨ typ = "day/time" ∨ typ = "days_of_week" ∨ typ = "days_of_month")) :
    serialize_schedule typ sv = .error .valueError ∧
    recipe_needs_to_be_downloaded env ⟨some ⟨typ, text⟩, ld⟩ = .ok false := by
  push_neg at h
  obtain ⟨h1, h2, h3, h4⟩ := h
  constructor
  · delta serialize_schedule
    rw [if_neg h1, if_neg h2, if_neg (by tauto)]
  · rw [recipe_needs_to_be_downloaded, un_serialize_schedule_mk, un_serialize_core_some,
      if_neg h1, if_neg h2, if_neg (by tauto)]

theorem bool_eq_decide {b : Bool} {p : Prop} [Decidable p] (h : b = true ↔ p) :
    b = decide p := by
  by_cases hp : p
  · rw [h.mpr hp, decide_eq_true hp]
  · have hb : b = false := by
      cases b
      · rfl
      · exact absurd (h.mp rfl) hp
    rw [hb, decide_eq_false hp]

/-- C2: for a `day/time` schedule `[day, hour, minute]`,
`recipe_needs_to_be_downloaded` returns `True` iff (`day` is outside `0..6`,
meaning any day, or equals the current local weekday) and the local date of
`ld` is not today's local date and the current local time is at or past
`hour:minute`. -/
theorem c2_daytime_needs_download (env : Env) (r : Recipe) (d h m : Int) (ld : ℚ)
    (ldl : LocalDT)
    (hun : un_serialize_schedule r = some (.ok (.dayTime [d, h, m], ld)))
    (hloc : env.toLocal ld = some ldl) :
    recipe_needs_to_be_downloaded env r =
      .ok (decide
        ((d < 0 ∨ 6 < d ∨
            d = (calendar_weekday env.nowLocal.year env.nowLocal.month env.nowLocal.day : Int)) ∧
          ¬(ldl.year = env.nowLocal.year ∧ ldl.month = env.nowLocal.month ∧
              ldl.day = env.nowLocal.day) ∧
          (env.nowLocal.hour > h ∨ (env.nowLocal.hour = h ∧ env.nowLocal.minute ≥ m)))) := by
  rw [recipe_needs_to_be_downloaded]
  simp only [hun, hloc]
  congr 1
  apply bool_eq_decide
  simp only [is_weekday, is_time, was_downloaded_already_today, Bool.and_eq_true,
    Bool.or_eq_true, Bool.not_eq_true', Bool.and_eq_false_imp, decide_eq_true_eq,
    Bool.decide_and, Bool.decide_or, Bool.decide_eq_true, gt_iff_lt, ge_iff_le,
    Bool.and_eq_false_iff, decide_eq_false_iff_not]
  tauto

/-- C2 witness: a concrete `day/time` recipe due for download. -/
theorem c2_daytime_needs_download_witness :
    recipe_needs_to_be_downloaded
        ⟨0, ⟨2026, 10, 12, 10, 30⟩, fun _ => some ⟨2026, 10, 11, 9, 0⟩⟩
        ⟨some ⟨"day/time", ['-', '1', ':', '9', ':', '0']⟩, some 0⟩ = .ok true := by
  have h := c2_daytime_needs_download
    ⟨0, ⟨2026, 10, 12, 10, 30⟩, fun _ => some ⟨2026, 10, 11, 9, 0⟩⟩
    ⟨some ⟨"day/time", ['-', '1', ':', '9', ':', '0']⟩, some 0⟩
    (-1) 9 0 0 ⟨2026, 10, 11, 9, 0⟩ rfl rfl
  rw [h]
  congr 1

/-- C3 witness: a concrete unknown schedule type. -/
theorem c3_unknown_schedule_type_witness :
    serialize_schedule "weekly" (.num 1) = .error .valueError ∧
    recipe_needs_to_be_downloaded ⟨0, ⟨2026, 1, 1, 0, 0⟩, fun _ => none⟩
        ⟨some ⟨"weekly", ['1']⟩, some 0⟩ = .ok false :=
  c3_unknown_schedule_type "weekly" (.num 1) ⟨0, ⟨2026, 1, 1, 0, 0⟩, fun _ => none⟩
    ['1'] (some 0) (by decide)

/-- C4: every mutating `SchedulerConfig` operation — `schedule_recipe`,
`customize_recipe`, `un_schedule_recipe`, `update_last_downloaded` and
`set_account_info` — ends by serializing the in-memory tree to the scheduler
configuration file via `write_scheduler_file`, so on normal completion the
persisted file reflects the tree after the mutation. -/
theorem c4_mutators_persist :
    (∀ (s : SchedState) (rid title typ : String) (sv : SchedVal) (ldo : Option ℚ)
        (st : SchedState),
      schedule_recipe s rid title typ sv ldo = (st, false) →
      st.fileContents = some st.root) ∧
    (∀ (s : SchedState) (urn : String) (val : RecipeCustomization),
      (customize_recipe s urn val).fileContents = some (customize_recipe s urn val).root) ∧
    (∀ (s : SchedState) (rid : String),
      (un_schedule_recipe s rid).fileContents = some (un_schedule_recipe s rid).root) ∧
    (∀ (s : SchedState) (rid : String) (now : ℚ) (st : SchedState),
      update_last_downloaded s rid now = (st, false) →
      st.fileContents = some st.root) ∧
    (∀ (s : SchedState) (urn un pw : String),
      (set_account_info s urn un pw).fileContents = some (set_account_info s urn un pw).root) := by
  refine ⟨?_, ?_, ?_, ?_, ?_⟩
  · intro s rid title typ sv ldo st hst
    rw [schedule_recipe] at hst
    cases hser : serialize_schedule typ sv with
    | error e =>
      rw [hser] at hst
      exact absurd (congrArg Prod.snd hst) (by simp)
    | ok el =>
      rw [hser] at hst
      have h1 := congrArg Prod.fst hst
      simp only at h1
      rw [← h1]
      rfl
  · intro s urn val
    rfl
  · intro s rid
    rfl
  · intro s rid now st hst
    rw [update_last_downloaded] at hst
    cases hupd : update_ld_list now rid s.root with
    | error e =>
      rw [hupd] at hst
      exact absurd (congrArg Prod.snd hst) (by simp)
    | ok root1 =>
      rw [hupd] at hst
      have h1 := congrArg Prod.fst hst
      simp only at h1
      rw [← h1]
      rfl
  · intro s urn un pw
    rfl

/-- C4 witness: two concrete runs that complete normally (the structurally
proved parts need no instance; these discharge the two hypotheses). -/
theorem c4_mutators_persist_witness :
    ((schedule_recipe ⟨[], none⟩ "r1" "t" "day/time" (.dayTime 1 2 3) none).1.fileContents =
      some (schedule_recipe ⟨[], none⟩ "r1" "t" "day/time" (.dayTime 1 2 3) none).1.root) ∧
    ((update_last_downloaded
        ⟨[.scheduled_recipe "r1" "t" 0 ⟨"day/time", ['1', ':', '2', ':', '3']⟩], none⟩
        "r1" 5).1.fileContents =
      some (update_last_downloaded
        ⟨[.scheduled_recipe "r1" "t" 0 ⟨"day/time", ['1', ':', '2', ':', '3']⟩], none⟩
        "r1" 5).1.root) :=
  ⟨c4_mutators_persist.1 ⟨[], none⟩ "r1" "t" "day/time" (.dayTime 1 2 3) none _ rfl,
   c4_mutators_persist.2.2.2.1
     ⟨[.scheduled_recipe "r1" "t" 0 ⟨"day/time", ['1', ':', '2', ':', '3']⟩], none⟩
     "r1" 5 _ rfl⟩

/-! ## List counting lemmas for C9 -/

theorem countP_eraseP_add_one {α : Type} {p : α → Bool} {l : List α}
    (h : l.any p = true) : (l.eraseP p).countP p + 1 = l.countP p := by
  induction l with
  | nil => simp at h
  | cons a t ih =>
    by_cases ha : p a
    · rw [List.eraseP_cons_of_pos ha, List.countP_cons_of_pos _ _ ha]
    · rw [List.eraseP_cons_of_neg ha, List.countP_cons_of_neg _ _ ha,
        List.countP_cons_of_neg _ _ ha]
      refine ih ?_
      rcases List.any_eq_true.mp h with ⟨x, hx, hpx⟩
      rcases List.mem_cons.mp hx with rfl | hx
      · exact absurd hpx ha
      · exact List.any_eq_true.mpr ⟨x, hx, hpx⟩

theorem countP_after_erase_append {α : Type} {p : α → Bool} {l : List α} {a : α}
    (hle : l.countP p ≤ 1) (hpa : p a = true) :
    (l.eraseP p ++ [a]).countP p = 1 := by
  rw [List.countP_append]
  have h3 : List.countP p [a] = 1 := by simp [hpa]
  rw [h3]
  by_cases h : l.any p = true
  · have h1 := countP_eraseP_add_one h
    have h2 : 0 < l.countP p := by
      rcases List.any_eq_true.mp h with ⟨x, hx, hpx⟩
      exact List.countP_pos_iff.mpr ⟨x, hx, hpx⟩
    omega
  · rw [List.eraseP_of_forall_not (fun x hx => by
      intro hpx
      exact h (List.any_eq_true.mpr ⟨x, hx, hpx⟩))]
    have h0 : l.countP p = 0 := by
      rw [List.countP_eq_zero]
      intro x hx hpx
      exact h (List.any_eq_true.mpr ⟨x, hx, hpx⟩)
    omega

/-- C9 counterexample: `schedule_recipe` removes only the FIRST matching
element (the loop breaks), so from a tree already holding two scheduled
recipes with the same id, a completed call leaves two — not exactly one. -/
theorem c9_uniqueness_counterexample :
    (schedule_recipe
        ⟨[.scheduled_recipe "x" "t" 0 ⟨"day/time", ['1']⟩,
          .scheduled_recipe "x" "t" 0 ⟨"day/time", ['1']⟩], none⟩
        "x" "t2" "day/time" (.dayTime 1 2 3) none).2 = false ∧
    ((schedule_recipe
        ⟨[.scheduled_recipe "x" "t" 0 ⟨"day/time", ['1']⟩,
          .scheduled_recipe "x" "t" 0 ⟨"day/time", ['1']⟩], none⟩
        "x" "t2" "day/time" (.dayTime 1 2 3) none).1.root.countP
      (Node.isRecipeWithId "x")) = 2 := by
  constructor
  · rfl
  · rfl

/-- C9 (amended): per-id uniqueness is preserved. `customize_recipe` removes
every matching element before appending, so the count is one afterwards
unconditionally; `schedule_recipe` and `set_account_info` remove only the
first match (their loops break), so the count is one afterwards provided at
most one element of that kind carried the id before the call. -/
theorem c9_per_id_uniqueness :
    (∀ (s : SchedState) (rid title typ : String) (sv : SchedVal) (ldo : Option ℚ)
        (st : SchedState),
      s.root.countP (Node.isRecipeWithId rid) ≤ 1 →
      schedule_recipe s rid title typ sv ldo = (st, false) →
      st.root.countP (Node.isRecipeWithId rid) = 1) ∧
    (∀ (s : SchedState) (urn : String) (val : RecipeCustomization),
      (customize_recipe s urn val).root.countP (Node.isCustWithId urn) = 1) ∧
    (∀ (s : SchedState) (urn un pw : String),
      s.root.countP (Node.isAccountWithId urn) ≤ 1 →
      (set_account_info s urn un pw).root.countP (Node.isAccountWithId urn) = 1) := by
  refine ⟨?_, ?_, ?_⟩
  · intro s rid title typ sv ldo st hle hst
    rw [schedule_recipe] at hst
    cases hser : serialize_schedule typ sv with
    | error e =>
      rw [hser] at hst
      exact absurd (congrArg Prod.snd hst) (by simp)
    | ok el =>
      rw [hser] at hst
      have h1 := congrArg Prod.fst hst
      simp only at h1
      rw [← h1]
      exact countP_after_erase_append hle (by simp [Node.isRecipeWithId])
  · intro s urn val
    show ((s.root.filter fun n => !Node.isCustWithId urn n) ++
      [Node.recipe_customization urn val]).countP (Node.isCustWithId urn) = 1
    rw [List.countP_append]
    have h0 : (s.root.filter fun n => !Node.isCustWithId urn n).countP
        (Node.isCustWithId urn) = 0 := by
      rw [List.countP_eq_zero]
      intro x hx
      have := (List.mem_filter.mp hx).2
      simpa using this
    rw [h0]
    simp [Node.isCustWithId]
  · intro s urn un pw hle
    exact countP_after_erase_append hle (by simp [Node.isAccountWithId])

/-- C9 witness: from a well-formed tree, one element of each kind with the
given id remains after the corresponding mutation. -/
theorem c9_per_id_uniqueness_witness :
    ((schedule_recipe ⟨[.scheduled_recipe "x" "t" 0 ⟨"day/time", ['1']⟩], none⟩
        "x" "t2" "day/time" (.dayTime 1 2 3) none).1.root.countP
      (Node.isRecipeWithId "x")) = 1 ∧
    ((customize_recipe ⟨[], none⟩ "u" ⟨true, [], 0, "{}"⟩).root.countP
      (Node.isCustWithId "u")) = 1 ∧
    ((set_account_info ⟨[.account_info "u" "a" "b"], none⟩ "u" "c" "d").root.countP
      (Node.isAccountWithId "u")) = 1 :=
  ⟨c9_per_id_uniqueness.1 ⟨[.scheduled_recipe "x" "t" 0 ⟨"day/time", ['1']⟩], none⟩
      "x" "t2" "day/time" (.dayTime 1 2 3) none _ (by decide) rfl,
   c9_per_id_uniqueness.2.1 ⟨[], none⟩ "u" ⟨true, [], 0, "{}"⟩,
   c9_per_id_uniqueness.2.2 ⟨[.account_info "u" "a" "b"], none⟩ "u" "c" "d" (by decide)⟩

/-- C7: the scheduler's tree is protected by the single reentrant lock of
`__init__`: in every `SchedulerConfig` method that reads or mutates
`self.root`, each root access happens at positive lock depth — the whole
body sits inside `with self.lock`. -/
theorem c7_lock_discipline :
    accessesUnderLock schedule_recipe_events = true ∧
    accessesUnderLock customize_recipe_events = true ∧
    accessesUnderLock un_schedule_recipe_events = true ∧
    accessesUnderLock update_last_downloaded_events = true ∧
    accessesUnderLock get_to_be_downloaded_recipes_events = true ∧
    accessesUnderLock set_account_info_events = true ∧
    accessesUnderLock get_account_info_events = true ∧
    accessesUnderLock clear_account_info_events = true ∧
    accessesUnderLock get_customize_info_events = true ∧
    accessesUnderLock get_schedule_info_events = true := by
  decide

/-- C5: for every plugin module loaded through `CalibrePluginLoader`, the
executed code is compiled from the bytes read out of the plugin zip entry for
that module: `get_source_as_bytes` returns the entry's bytes when
`plugin_name`, `fullname_in_plugin` and `zip_file_path` are all set and the
module name is in the loader's name table, and returns `b''` otherwise;
`exec_module` compiles exactly those bytes and executes them in the module's
namespace. -/
theorem c5_loader_executes_zip_bytes (env : ZipEnv) (L : PluginLoader) :
    (∀ (zi : ZInfo) (b : Bytes),
      truthyS L.plugin_name = true → truthyS L.fullname_in_plugin = true →
      truthyS L.zip_file_path = true →
      L.names.lookup L.fullname_in_plugin = some zi →
      env.readInfo zi = .ok b →
      get_source_as_bytes env L = .ok b ∧
      (exec_module env L).map PModule.executed =
        .ok (env.compile b
          ("calibre_plugins." ++ L.plugin_name ++ "." ++ L.fullname_in_plugin))) ∧
    ((truthyS L.plugin_name = false ∨ truthyS L.fullname_in_plugin = false ∨
        truthyS L.zip_file_path = false ∨ L.names.lookup L.fullname_in_plugin = none) →
      get_source_as_bytes env L = .ok []) := by
  constructor
  · intro zi b h1 h2 h3 hlook hread
    have hsrc : get_source_as_bytes env L = .ok b := by
      rw [get_source_as_bytes, h1, h2, h3]
      simp only [Bool.and_self, if_true, hlook, hread]
    refine ⟨hsrc, ?_⟩
    rw [exec_module, get_code, hsrc]
    rfl
  · intro hcase
    rw [get_source_as_bytes]
    rcases hcase with h | h | h | h
    · rw [h]
      rfl
    · rw [h]
      simp
    · rw [h]
      simp
    · cases hc : (truthyS L.plugin_name && truthyS L.fullname_in_plugin &&
          truthyS L.zip_file_path) with
      | false => simp [hc]
      | true => simp [hc, h]

/-- C5 witness: a loader with all slots set executes the compiled zip bytes;
a loader with an empty plugin name yields `b''`. -/
theorem c5_loader_executes_zip_bytes_witness :
    get_source_as_bytes
        ⟨fun _ => .ok [1, 2], fun _ => .error (), fun b _ => b.length⟩
        ⟨"p", "m", "z.zip", [("m", ⟨"m.py"⟩)], "f.py"⟩ = .ok [1, 2] ∧
    (exec_module
        ⟨fun _ => .ok [1, 2], fun _ => .error (), fun b _ => b.length⟩
        ⟨"p", "m", "z.zip", [("m", ⟨"m.py"⟩)], "f.py"⟩).map PModule.executed = .ok 2 ∧
    get_source_as_bytes
        ⟨fun _ => .ok [1, 2], fun _ => .error (), fun b _ => b.length⟩
        ⟨"", "m", "z.zip", [("m", ⟨"m.py"⟩)], "f.py"⟩ = .ok [] := by
  have h := (c5_loader_executes_zip_bytes
    ⟨fun _ => .ok [1, 2], fun _ => .error (), fun b _ => b.length⟩
    ⟨"p", "m", "z.zip", [("m", ⟨"m.py"⟩)], "f.py"⟩).1 ⟨"m.py"⟩ [1, 2]
    rfl rfl rfl rfl rfl
  refine ⟨h.1, h.2, ?_⟩
  exact (c5_loader_executes_zip_bytes _ _).2 (Or.inl rfl)

/-! ## Dict lemmas for C10 -/

theorem dictLookup_dictInsert (d : List (String × Bytes)) (k nm : String) (v : Bytes) :
    dictLookup (dictInsert d k v) nm = if k = nm then some v else dictLookup d nm := by
  induction d with
  | nil => by_cases h : k = nm <;> simp [dictInsert, dictLookup, h]
  | cons kv rest ih =>
    by_cases hk : kv.1 = k
    · by_cases h : k = nm <;> simp [dictInsert, dictLookup, hk, h]
    · by_cases h1 : kv.1 = nm
      · have hkn : ¬k = nm := fun he => hk (h1.trans he.symm)
        have hnk : ¬nm = k := fun he => hkn he.symm
        simp [dictInsert, dictLookup, hk, h1, hkn, hnk]
      · simp [dictInsert, dictLookup, hk, h1, ih]

theorem dictLookup_resourcesDict_aux (zf : String → Option Bytes) (ns : List String)
    (acc : List (String × Bytes)) (nm : String) :
    dictLookup (ns.foldl (fun acc n =>
        match zf n with
        | some b => dictInsert acc n b
        | none => acc) acc) nm =
      if nm ∈ ns ∧ (zf nm).isSome then zf nm else dictLookup acc nm := by
  induction ns generalizing acc with
  | nil => simp
  | cons n ns ih =>
    rw [List.foldl_cons, ih]
    by_cases hmem : nm ∈ ns ∧ (zf nm).isSome
    · rw [if_pos hmem, if_pos ⟨by simp [hmem.1], hmem.2⟩]
    · rw [if_neg hmem]
      by_cases hnm : nm = n
      · subst hnm
        cases hzf : zf nm with
        | some b =>
          simp only [hzf]
          rw [dictLookup_dictInsert, if_pos rfl, if_pos ⟨by simp, by simp⟩]
        | none =>
          simp only [hzf]
          rw [if_neg (by
            rintro ⟨hin, hsome⟩
            simp at hsome)]
      · cases hzf : zf n with
        | some b =>
          simp only [hzf]
          rw [dictLookup_dictInsert, if_neg (fun he => hnm he.symm), if_neg (by
            rintro ⟨hin, hsome⟩
            rcases List.mem_cons.mp hin with rfl | hin
            · exact hnm rfl
            · exact hmem ⟨hin, hsome⟩)]
        | none =>
          simp only [hzf]
          rw [if_neg (by
            rintro ⟨hin, hsome⟩
            rcases List.mem_cons.mp hin with rfl | hin
            · exact hnm rfl
            · exact hmem ⟨hin, hsome⟩)]

theorem dictLookup_resourcesDict (zf : String → Option Bytes) (ns : List String)
    (nm : String) :
    dictLookup (resourcesDict zf ns) nm =
      if nm ∈ ns ∧ (zf nm).isSome then zf nm else none := by
  rw [resourcesDict, dictLookup_resourcesDict_aux]
  rfl

theorem dictLookup_eq_none_iff_keys (l : List (String × Bytes)) (nm : String) :
    dictLookup l nm = none ↔ nm ∉ l.map Prod.fst := by
  induction l with
  | nil => simp [dictLookup]
  | cons kv rest ih =>
    rw [dictLookup]
    by_cases h : kv.1 = nm
    · simp [if_pos h, h]
    · rw [if_neg h]
      simp only [List.map_cons, List.mem_cons]
      rw [ih]
      constructor
      · rintro hn (rfl | hin)
        · exact h rfl
        · exact hn hin
      · intro hn hin
        exact hn (Or.inr hin)

/-- C10: `get_resources` returns a dictionary mapping each requested name
found in the zip to its bytes, names not found absent; a single name or a
one-element list collapses to the bare bytes, or `None` if not found. -/
theorem c10_get_resources (zf : String → Option Bytes) :
    (∀ ns : List String, ns.length ≠ 1 →
      get_resources zf (.many ns) = .dict (resourcesDict zf ns) ∧
      (∀ nm : String, dictLookup (resourcesDict zf ns) nm =
        if nm ∈ ns ∧ (zf nm).isSome then zf nm else none) ∧
      (∀ nm : String, nm ∈ (resourcesDict zf ns).map Prod.fst ↔
        nm ∈ ns ∧ (zf nm).isSome)) ∧
    (∀ nm : String,
      get_resources zf (.one nm) =
        (match zf nm with | some b => .bytes b | none => .null) ∧
      get_resources zf (.many [nm]) =
        (match zf nm with | some b => .bytes b | none => .null)) := by
  constructor
  · intro ns hlen
    refine ⟨?_, fun nm => dictLookup_resourcesDict zf ns nm, ?_⟩
    · cases ns with
      | nil => rfl
      | cons n t =>
        cases t with
        | nil => exact absurd rfl hlen
        | cons n2 t2 => rfl
    · intro nm
      have hl := dictLookup_resourcesDict zf ns nm
      constructor
      · intro hmem
        by_contra hcon
        rw [if_neg hcon] at hl
        exact (dictLookup_eq_none_iff_keys _ nm).mp hl hmem
      · intro hcond
        by_contra hcon
        have hnone := (dictLookup_eq_none_iff_keys (resourcesDict zf ns) nm).mpr hcon
        rw [hl, if_pos hcond] at hnone
        rw [Option.isSome_iff_exists] at hcond
        rcases hcond.2 with ⟨b, hb⟩
        rw [hb] at hnone
        exact Option.some_ne_none b hnone
  · intro nm
    have hl : dictLookup (resourcesDict zf [nm]) nm = zf nm := by
      rw [dictLookup_resourcesDict]
      cases hzf : zf nm with
      | some b => rw [if_pos ⟨by simp, by simp [hzf]⟩]
      | none => rw [if_neg (by simp [hzf])]
    have hone : get_resources zf (.one nm) =
        (match zf nm with | some b => .bytes b | none => .null) := by
      show (match dictLookup (resourcesDict zf [nm]) nm with
        | some b => RRes.bytes b
        | none => RRes.null) =
        (match zf nm with | some b => .bytes b | none => .null)
      rw [hl]
    exact ⟨hone, hone⟩

/-- C10 witness: a two-entry request returns a dict holding only the name
present in the zip; single-name requests collapse. -/
theorem c10_get_resources_witness :
    get_resources (fun s => if s = "a" then some [7] else none) (.many ["a", "b"]) =
      .dict [("a", [7])] ∧
    get_resources (fun s => if s = "a" then some [7] else none) (.one "a") = .bytes [7] ∧
    get_resources (fun s => if s = "a" then some [7] else none) (.one "b") = .null :=
  ⟨((c10_get_resources (fun s => if s = "a" then some [7] else none)).1
      ["a", "b"] (by decide)).1,
   ((c10_get_resources (fun s => if s = "a" then some [7] else none)).2 "a").1,
   ((c10_get_resources (fun s => if s = "a" then some [7] else none)).2 "b").1⟩

/-- C6: on lines of `/proc/mounts` whose whitespace split has at least two
fields, `node_mountpoint` returns the de-mangled second field of the first
line whose first field equals `node` (octal escapes `\040`, `\011`, `\012`,
`\0134` turned into space, tab, newline, backslash by `de_mangle`), and
`None` when no line's first field equals `node`. -/
theorem c6_node_mountpoint (node : Chars) (lines : List Chars)
    (hwf : ∀ l ∈ lines, 2 ≤ (pySplitWs l).length) :
    node_mountpoint node lines =
      .ok ((lines.find? (fun l => (pySplitWs l).head? = some node)).map
        (fun l => de_mangle ((pySplitWs l).getD 1 []))) := by
  induction lines with
  | nil => rfl
  | cons l rest ih =>
    have hl := hwf l (by simp)
    obtain ⟨f0, f1, t, hsplit⟩ : ∃ f0 f1 t, pySplitWs l = f0 :: f1 :: t := by
      cases h0 : pySplitWs l with
      | nil => rw [h0] at hl; simp at hl
      | cons f0 t1 =>
        cases t1 with
        | nil => rw [h0] at hl; simp at hl
        | cons f1 t => exact ⟨f0, f1, t, rfl⟩
    rw [node_mountpoint]
    simp only [hsplit]
    rw [List.find?_cons]
    by_cases heq : f0 = node
    · rw [if_pos heq]
      have hpred : (decide ((pySplitWs l).head? = some node)) = true := by
        rw [hsplit]
        simp [heq]
      rw [hpred]
      simp only [Option.map_some']
      rw [hsplit]
      rfl
    · rw [if_neg heq]
      have hpred : (decide ((pySplitWs l).head? = some node)) = false := by
        rw [hsplit]
        simp [heq]
      rw [hpred]
      exact ih (fun x hx => hwf x (by simp [hx]))

/-- C6 witness: a two-line mount table, hit and miss, with an escaped space
in the mount point. -/
theorem c6_node_mountpoint_witness :
    node_mountpoint "/dev/sdb1".toList
        ["/dev/sda1 / ext4 rw 0 0".toList,
          "/dev/sdb1 /mnt/my\\040disk vfat rw 0 0".toList] =
      .ok (some "/mnt/my disk".toList) ∧
    node_mountpoint "/dev/sdc1".toList
        ["/dev/sda1 / ext4 rw 0 0".toList,
          "/dev/sdb1 /mnt/my\\040disk vfat rw 0 0".toList] = .ok none := by
  constructor
  · have h := c6_node_mountpoint "/dev/sdb1".toList
      ["/dev/sda1 / ext4 rw 0 0".toList,
        "/dev/sdb1 /mnt/my\\040disk vfat rw 0 0".toList] (by decide)
    rw [h]
    decide
  · have h := c6_node_mountpoint "/dev/sdc1".toList
      ["/dev/sda1 / ext4 rw 0 0".toList,
        "/dev/sdb1 /mnt/my\\040disk vfat rw 0 0".toList] (by decide)
    rw [h]
    decide

end CalibreSpec
